import Mathlib

/-!
Formal model of the podcast audio visualizer core (`src/app.js`).

JavaScript numbers appearing in the analyzer and renderer cores are
modelled as exact rationals (`ℚ`): every quantity manipulated by the
analyzed code paths is produced from byte magnitudes, integer indices
and exact decimal literals by field operations, so the rational
semantics coincides with the ideal real-number semantics of the source.
Byte magnitudes from `getByteFrequencyData` are natural numbers in
`[0,255]`.
-/

namespace PodcastViz

/-- The `bands` record exposed by `AudioAnalyzer` (`this.bands`). -/
structure Bands where
  bass : ℚ
  mid : ℚ
  treble : ℚ
  average : ℚ
  brightness : ℚ
deriving DecidableEq, Repr

/-- The zero bands set by the `AudioAnalyzer` constructor. -/
def initBands : Bands := ⟨0, 0, 0, 0, 0⟩

/-- Accumulator of the per-bin loop in `AudioAnalyzer.update`
(`totalSum`, `weightedSum`, `bassSum`/`bassBins`, `midSum`/`midBins`,
`trebleSum`/`trebleBins`). -/
structure Sums where
  totalSum : ℚ
  weightedSum : ℚ
  bassSum : ℚ
  midSum : ℚ
  trebleSum : ℚ
  bassBins : ℕ
  midBins : ℕ
  trebleBins : ℕ
deriving DecidableEq, Repr

/-- All accumulators start at zero. -/
def initSums : Sums := ⟨0, 0, 0, 0, 0, 0, 0, 0⟩

/-- One iteration of the loop body in `AudioAnalyzer.update`: `p.1` is the
bin index `i`, `p.2` the byte magnitude `value`; `freq = i * binWidth`;
the noise gate is `value > 10`, then the `if / else if / else if` chain on
`freq` selects the bass, mid or treble accumulators. -/
def stepBin (binWidth : ℚ) (acc : Sums) (p : ℕ × ℕ) : Sums :=
  let i := p.1
  let value := p.2
  let freq : ℚ := (i : ℚ) * binWidth
  if 10 < value then
    let acc1 : Sums :=
      { acc with
        totalSum := acc.totalSum + (value : ℚ)
        weightedSum := acc.weightedSum + (i : ℚ) * (value : ℚ) }
    if 80 ≤ freq ∧ freq < 300 then
      { acc1 with bassSum := acc1.bassSum + (value : ℚ), bassBins := acc1.bassBins + 1 }
    else if 300 ≤ freq ∧ freq < 3000 then
      { acc1 with midSum := acc1.midSum + (value : ℚ), midBins := acc1.midBins + 1 }
    else if 3000 ≤ freq ∧ freq < 8000 then
      { acc1 with trebleSum := acc1.trebleSum + (value : ℚ), trebleBins := acc1.trebleBins + 1 }
    else
      acc1
  else
    acc

/-- The pure band computation of `AudioAnalyzer.update`: iterate the bin
loop over the indexed magnitude array, then normalize exactly as the
source does (`bassSum / bassBins / 255` guarded by `bassBins > 0`,
`totalSum / binCount / 255` for `average`, and the spectral centroid
`weightedSum / totalSum / binCount` guarded by `totalSum > 0`). -/
def computeBands (sampleRate : ℚ) (data : List ℕ) : Bands :=
  let binCount := data.length
  let binWidth : ℚ := sampleRate / 2 / (binCount : ℚ)
  let s := data.enum.foldl (stepBin binWidth) initSums
  { bass := if 0 < s.bassBins then s.bassSum / (s.bassBins : ℚ) / 255 else 0
    mid := if 0 < s.midBins then s.midSum / (s.midBins : ℚ) / 255 else 0
    treble := if 0 < s.trebleBins then s.trebleSum / (s.trebleBins : ℚ) / 255 else 0
    average := s.totalSum / (binCount : ℚ) / 255
    brightness := if 0 < s.totalSum then s.weightedSum / s.totalSum / (binCount : ℚ) else 0 }

/-- State of an `AudioAnalyzer` instance: the `isInitialized` flag, the
audio context's sample rate (meaningful once initialized) and the exposed
`bands`. -/
structure AnalyzerState where
  isInitialized : Bool
  sampleRate : ℚ
  bands : Bands
deriving DecidableEq, Repr

/-- The `AudioAnalyzer` constructor: not initialized, all bands zero. -/
def mkAnalyzer : AnalyzerState := ⟨false, 0, initBands⟩

/-- Successful completion of `AudioAnalyzer.init`: the capture session is
established (recording the context's sample rate) and `isInitialized`
becomes `true`.  The failure path leaves the state unchanged and is not
needed here. -/
def initAnalyzer (s : AnalyzerState) (sampleRate : ℚ) : AnalyzerState :=
  { s with isInitialized := true, sampleRate := sampleRate }

/-- `AudioAnalyzer.update`, with the frequency snapshot delivered by
`getByteFrequencyData` passed explicitly: an early `return` when
`isInitialized` is false, otherwise recompute `this.bands`. -/
def update (s : AnalyzerState) (data : List ℕ) : AnalyzerState :=
  if s.isInitialized then { s with bands := computeBands s.sampleRate data } else s

/-- `AudioAnalyzer.stop`: releases the capture resources and clears
`isInitialized`; the `bands` record is left untouched. -/
def stop (s : AnalyzerState) : AnalyzerState :=
  { s with isInitialized := false }

/-- The three hue families of `ParticleVisualizer.draw`. -/
inductive HueFamily where
  | bassBluePurple
  | midCyanGreen
  | treblePinkMagenta
deriving DecidableEq, Repr

/-- The hue-dominance branch of `ParticleVisualizer.draw`:
`if (bands.bass > bands.mid && bands.bass > bands.treble) … else if
(bands.mid > bands.treble) … else …`. -/
def selectHueFamily (bands : Bands) : HueFamily :=
  if bands.bass > bands.mid ∧ bands.bass > bands.treble then
    HueFamily.bassBluePurple
  else if bands.mid > bands.treble then
    HueFamily.midCyanGreen
  else
    HueFamily.treblePinkMagenta

/-- One particle of `ParticleVisualizer`, fields in creation order. -/
structure Particle where
  x : ℚ
  y : ℚ
  size : ℚ
  speedX : ℚ
  speedY : ℚ
  baseAlpha : ℚ
deriving DecidableEq, Repr

/-- The per-particle position update of `ParticleVisualizer.draw`:
displace by `speed * (1 + intensity)`, then the four sequential wrap
checks (`x < 0 → x = width`, `x > width → x = 0`, and likewise for `y`). -/
def moveParticle (width height intensity : ℚ) (p : Particle) : Particle :=
  let x1 := p.x + p.speedX * (1 + intensity)
  let y1 := p.y + p.speedY * (1 + intensity)
  let x2 := if x1 < 0 then width else x1
  let x3 := if x2 > width then 0 else x2
  let y2 := if y1 < 0 then height else y1
  let y3 := if y2 > height then 0 else y2
  { p with x := x3, y := y3 }

/-- `ParticleVisualizer.initParticles`, with `Math.random()` modelled as a
stream `rand` of draws consumed in source order: per particle `i` the six
successive draws give `x`, `y`, `size`, `speedX`, `speedY`, `baseAlpha`
(`0.5 = 1/2`, `1.5 = 3/2`, `0.2 = 1/5` exactly). -/
def initParticles (rand : ℕ → ℚ) (width height : ℚ) : List Particle :=
  (List.range 200).map fun i =>
    { x := rand (6 * i) * width
      y := rand (6 * i + 1) * height
      size := rand (6 * i + 2) * 2 + 1 / 2
      speedX := (rand (6 * i + 3) - 1 / 2) * (3 / 2)
      speedY := (rand (6 * i + 4) - 1 / 2) * (3 / 2)
      baseAlpha := rand (6 * i + 5) * (1 / 2) + 1 / 5 }

/-- One wave layer configuration of `WaveVisualizer` (`color` kept as the
CSS string; `offset` is the mutable running phase). -/
structure WaveCfg where
  amplitude : ℚ
  frequency : ℚ
  speed : ℚ
  color : String
  offset : ℚ
deriving DecidableEq, Repr

/-- The three wave layers created by the `WaveVisualizer` constructor
(`0.01 = 1/100`, `0.02 = 1/50`, `0.03 = 3/100` exactly). -/
def wavesInit : List WaveCfg :=
  [ ⟨50, 1 / 100, 1 / 50, "#00f2ff", 0⟩
  , ⟨30, 1 / 50, 3 / 100, "#7000ff", 2⟩
  , ⟨20, 3 / 100, 1 / 100, "#ff00c8", 4⟩ ]

/-- The phase update at the end of `WaveVisualizer.drawWave`:
`cfg.offset += cfg.speed * (1 + bandValue)`. -/
def drawWaveOffset (cfg : WaveCfg) (bandValue : ℚ) : WaveCfg :=
  { cfg with offset := cfg.offset + cfg.speed * (1 + bandValue) }

/-- Count of bins passing the noise gate (`value > 10`), the
"contributing bins" of the specification. -/
def gatedCount (data : List ℕ) : ℕ :=
  (data.filter (fun v => decide (10 < v))).length

/-! ### Specification-side aggregate sums

Direct (loop-free) descriptions of the quantities accumulated by the bin
loop, over the indexed magnitude list `data.enum`.  These are the
vocabulary of the normalization-policy claims. -/

/-- Sum of the magnitudes of the bins passing the noise gate. -/
def gatedTotal (l : List (ℕ × ℕ)) : ℚ :=
  (l.map fun p => if 10 < p.2 then (p.2 : ℚ) else 0).sum

/-- Index-weighted sum of the magnitudes of the gated bins (the spectral
centroid's numerator). -/
def weightedTotal (l : List (ℕ × ℕ)) : ℚ :=
  (l.map fun p => if 10 < p.2 then (p.1 : ℚ) * (p.2 : ℚ) else 0).sum

/-- Sum of gated magnitudes whose frequency `i * bw` lies in `[lo, hi)`. -/
def bandTotal (bw lo hi : ℚ) (l : List (ℕ × ℕ)) : ℚ :=
  (l.map fun p =>
    if 10 < p.2 ∧ lo ≤ (p.1 : ℚ) * bw ∧ (p.1 : ℚ) * bw < hi then (p.2 : ℚ) else 0).sum

/-- Number of gated bins whose frequency `i * bw` lies in `[lo, hi)`: the
count of bins contributing to that sub-band's sum. -/
def bandCount (bw lo hi : ℚ) (l : List (ℕ × ℕ)) : ℕ :=
  (l.map fun p =>
    if 10 < p.2 ∧ lo ≤ (p.1 : ℚ) * bw ∧ (p.1 : ℚ) * bw < hi then 1 else 0).sum

/-! ### Loop characterization

Each accumulator of the bin loop equals the corresponding direct sum.
The three frequency ranges `[80,300)`, `[300,3000)`, `[3000,8000)` are
pairwise disjoint, so the `else if` chain's implicit negations drop out. -/

lemma stepBin_totalSum (bw : ℚ) (acc : Sums) (p : ℕ × ℕ) :
    (stepBin bw acc p).totalSum = acc.totalSum + if 10 < p.2 then (p.2 : ℚ) else 0 := by
  rcases p with ⟨i, v⟩
  dsimp only [stepBin]
  split_ifs <;> simp

lemma stepBin_weightedSum (bw : ℚ) (acc : Sums) (p : ℕ × ℕ) :
    (stepBin bw acc p).weightedSum =
      acc.weightedSum + if 10 < p.2 then (p.1 : ℚ) * (p.2 : ℚ) else 0 := by
  rcases p with ⟨i, v⟩
  dsimp only [stepBin]
  split_ifs <;> simp

lemma stepBin_bassSum (bw : ℚ) (acc : Sums) (p : ℕ × ℕ) :
    (stepBin bw acc p).bassSum = acc.bassSum +
      if 10 < p.2 ∧ 80 ≤ (p.1 : ℚ) * bw ∧ (p.1 : ℚ) * bw < 300 then (p.2 : ℚ) else 0 := by
  rcases p with ⟨i, v⟩
  dsimp only [stepBin]
  split_ifs <;> simp_all

lemma stepBin_bassBins (bw : ℚ) (acc : Sums) (p : ℕ × ℕ) :
    (stepBin bw acc p).bassBins = acc.bassBins +
      if 10 < p.2 ∧ 80 ≤ (p.1 : ℚ) * bw ∧ (p.1 : ℚ) * bw < 300 then 1 else 0 := by
  rcases p with ⟨i, v⟩
  dsimp only [stepBin]
  split_ifs <;> simp_all

lemma stepBin_midSum (bw : ℚ) (acc : Sums) (p : ℕ × ℕ) :
    (stepBin bw acc p).midSum = acc.midSum +
      if 10 < p.2 ∧ 300 ≤ (p.1 : ℚ) * bw ∧ (p.1 : ℚ) * bw < 3000 then (p.2 : ℚ) else 0 := by
  rcases p with ⟨i, v⟩
  dsimp only [stepBin]
  split_ifs <;> simp_all <;> linarith

lemma stepBin_midBins (bw : ℚ) (acc : Sums) (p : ℕ × ℕ) :
    (stepBin bw acc p).midBins = acc.midBins +
      if 10 < p.2 ∧ 300 ≤ (p.1 : ℚ) * bw ∧ (p.1 : ℚ) * bw < 3000 then 1 else 0 := by
  rcases p with ⟨i, v⟩
  dsimp only [stepBin]
  split_ifs <;> simp_all <;> linarith

lemma stepBin_trebleSum (bw : ℚ) (acc : Sums) (p : ℕ × ℕ) :
    (stepBin bw acc p).trebleSum = acc.trebleSum +
      if 10 < p.2 ∧ 3000 ≤ (p.1 : ℚ) * bw ∧ (p.1 : ℚ) * bw < 8000 then (p.2 : ℚ) else 0 := by
  rcases p with ⟨i, v⟩
  dsimp only [stepBin]
  split_ifs <;> simp_all <;> linarith

lemma stepBin_trebleBins (bw : ℚ) (acc : Sums) (p : ℕ × ℕ) :
    (stepBin bw acc p).trebleBins = acc.trebleBins +
      if 10 < p.2 ∧ 3000 ≤ (p.1 : ℚ) * bw ∧ (p.1 : ℚ) * bw < 8000 then 1 else 0 := by
  rcases p with ⟨i, v⟩
  dsimp only [stepBin]
  split_ifs <;> simp_all <;> linarith

/-- Any additive component of the accumulator distributes over the fold. -/
lemma foldl_stepBin_add {β : Type*} [AddCommMonoid β] (bw : ℚ) (f : Sums → β)
    (g : ℕ × ℕ → β) (hstep : ∀ acc p, f (stepBin bw acc p) = f acc + g p) :
    ∀ (l : List (ℕ × ℕ)) (acc : Sums),
      f (l.foldl (stepBin bw) acc) = f acc + (l.map g).sum := by
  intro l
  induction l with
  | nil => intro acc; simp
  | cons a l ih => intro acc; simp [List.foldl_cons, ih, hstep, add_assoc]

/-- `AudioAnalyzer.update`'s band record, described by direct sums: each
sub-band is the gated in-range magnitude sum normalized by `255` and the
count of contributing bins (`0` when that count is `0`); `average` is the
gated total normalized by `255` and the FULL bin count; `brightness` is
the gated spectral centroid normalized by the full bin count. -/
lemma computeBands_spec (sampleRate : ℚ) (data : List ℕ) :
    computeBands sampleRate data =
      { bass :=
          if 0 < bandCount (sampleRate / 2 / (data.length : ℚ)) 80 300 data.enum then
            bandTotal (sampleRate / 2 / (data.length : ℚ)) 80 300 data.enum /
              (bandCount (sampleRate / 2 / (data.length : ℚ)) 80 300 data.enum : ℚ) / 255
          else 0
        mid :=
          if 0 < bandCount (sampleRate / 2 / (data.length : ℚ)) 300 3000 data.enum then
            bandTotal (sampleRate / 2 / (data.length : ℚ)) 300 3000 data.enum /
              (bandCount (sampleRate / 2 / (data.length : ℚ)) 300 3000 data.enum : ℚ) / 255
          else 0
        treble :=
          if 0 < bandCount (sampleRate / 2 / (data.length : ℚ)) 3000 8000 data.enum then
            bandTotal (sampleRate / 2 / (data.length : ℚ)) 3000 8000 data.enum /
              (bandCount (sampleRate / 2 / (data.length : ℚ)) 3000 8000 data.enum : ℚ) / 255
          else 0
        average := gatedTotal data.enum / (data.length : ℚ) / 255
        brightness :=
          if 0 < gatedTotal data.enum then
            weightedTotal data.enum / gatedTotal data.enum / (data.length : ℚ)
          else 0 } := by
  have htot := foldl_stepBin_add (sampleRate / 2 / (data.length : ℚ)) Sums.totalSum _
    (stepBin_totalSum _) data.enum initSums
  have hw := foldl_stepBin_add (sampleRate / 2 / (data.length : ℚ)) Sums.weightedSum _
    (stepBin_weightedSum _) data.enum initSums
  have hbs := foldl_stepBin_add (sampleRate / 2 / (data.length : ℚ)) Sums.bassSum _
    (stepBin_bassSum _) data.enum initSums
  have hbb := foldl_stepBin_add (sampleRate / 2 / (data.length : ℚ)) Sums.bassBins _
    (stepBin_bassBins _) data.enum initSums
  have hms := foldl_stepBin_add (sampleRate / 2 / (data.length : ℚ)) Sums.midSum _
    (stepBin_midSum _) data.enum initSums
  have hmb := foldl_stepBin_add (sampleRate / 2 / (data.length : ℚ)) Sums.midBins _
    (stepBin_midBins _) data.enum initSums
  have hts := foldl_stepBin_add (sampleRate / 2 / (data.length : ℚ)) Sums.trebleSum _
    (stepBin_trebleSum _) data.enum initSums
  have htb := foldl_stepBin_add (sampleRate / 2 / (data.length : ℚ)) Sums.trebleBins _
    (stepBin_trebleBins _) data.enum initSums
  simp only [initSums] at htot hw hbs hbb hms hmb hts htb
  simp only [computeBands, gatedTotal, weightedTotal, bandTotal, bandCount, Bands.mk.injEq]
  refine ⟨?_, ?_, ?_, ?_, ?_⟩ <;>
    simp [initSums, htot, hw, hbs, hbb, hms, hmb, hts, htb]

/-- A bin stopped by the noise gate leaves every accumulator unchanged. -/
lemma stepBin_not_gated (bw : ℚ) (acc : Sums) (p : ℕ × ℕ) (h : p.2 ≤ 10) :
    stepBin bw acc p = acc := by
  rcases p with ⟨i, v⟩
  dsimp only [stepBin]
  rw [if_neg (by omega)]

/-- A run of bins all stopped by the noise gate leaves the accumulator
unchanged. -/
lemma foldl_stepBin_ungated (bw : ℚ) (l : List (ℕ × ℕ)) (acc : Sums)
    (h : ∀ p ∈ l, p.2 ≤ 10) : l.foldl (stepBin bw) acc = acc := by
  induction l generalizing acc with
  | nil => rfl
  | cons a l ih =>
    rw [List.foldl_cons, stepBin_not_gated _ _ _ (h a (by simp)),
      ih _ (fun p hp => h p (by simp [hp]))]

/-- When exactly one bin (at index `pre.length`) passes the noise gate,
the whole loop reduces to that single iteration. -/
lemma foldl_stepBin_single (bw : ℚ) (pre post : List ℕ) (v : ℕ)
    (hpre : ∀ w ∈ pre, w ≤ 10) (hpost : ∀ w ∈ post, w ≤ 10) :
    (pre ++ v :: post).enum.foldl (stepBin bw) initSums =
      stepBin bw initSums (pre.length, v) := by
  rw [List.enum_append, List.foldl_append,
    foldl_stepBin_ungated _ _ _ (fun p hp => hpre p.2 (List.snd_mem_of_mem_enum hp)),
    List.enumFrom_cons, List.foldl_cons]
  exact foldl_stepBin_ungated _ _ _ (fun p hp => hpost p.2 (List.snd_mem_of_mem_enumFrom hp))

/-! ### Bounds on the aggregate sums -/

lemma bandTotal_nonneg (bw lo hi : ℚ) (l : List (ℕ × ℕ)) : 0 ≤ bandTotal bw lo hi l := by
  apply List.sum_nonneg
  intro x hx
  simp only [List.mem_map] at hx
  obtain ⟨p, _, rfl⟩ := hx
  split_ifs <;> positivity

lemma gatedTotal_nonneg (l : List (ℕ × ℕ)) : 0 ≤ gatedTotal l := by
  apply List.sum_nonneg
  intro x hx
  simp only [List.mem_map] at hx
  obtain ⟨p, _, rfl⟩ := hx
  split_ifs <;> positivity

lemma weightedTotal_nonneg (l : List (ℕ × ℕ)) : 0 ≤ weightedTotal l := by
  apply List.sum_nonneg
  intro x hx
  simp only [List.mem_map] at hx
  obtain ⟨p, _, rfl⟩ := hx
  split_ifs <;> positivity

/-- Each contributing magnitude is a byte, so a band's sum is at most
`255` per contributing bin. -/
lemma bandTotal_le (bw lo hi : ℚ) (l : List (ℕ × ℕ)) (hv : ∀ p ∈ l, p.2 ≤ 255) :
    bandTotal bw lo hi l ≤ 255 * (bandCount bw lo hi l : ℚ) := by
  unfold bandTotal bandCount
  rw [Nat.cast_list_sum, List.map_map, ← List.sum_map_mul_left]
  apply List.sum_le_sum
  intro p hp
  have h255 := hv p hp
  simp only [Function.comp]
  split_ifs with h
  · have hc : (p.2 : ℚ) ≤ 255 := by exact_mod_cast h255
    push_cast
    linarith
  · simp

/-- The gated total is at most `255` per analyzed bin. -/
lemma gatedTotal_le (l : List (ℕ × ℕ)) (hv : ∀ p ∈ l, p.2 ≤ 255) :
    gatedTotal l ≤ 255 * (l.length : ℚ) := by
  unfold gatedTotal
  have hconst : (255 : ℚ) * (l.length : ℚ) = (l.map fun _ => (255 : ℚ)).sum := by
    simp [List.map_const', List.sum_replicate, nsmul_eq_mul, mul_comm]
  rw [hconst]
  apply List.sum_le_sum
  intro p hp
  have h255 := hv p hp
  split_ifs
  · exact_mod_cast h255
  · norm_num

/-- The centroid numerator is bounded by any bound on the contributing
bin indices times the gated total. -/
lemma weightedTotal_le (l : List (ℕ × ℕ)) (B : ℚ) (hB : ∀ p ∈ l, (p.1 : ℚ) ≤ B) :
    weightedTotal l ≤ B * gatedTotal l := by
  unfold weightedTotal gatedTotal
  rw [← List.sum_map_mul_left]
  apply List.sum_le_sum
  intro p hp
  split_ifs
  · exact mul_le_mul_of_nonneg_right (hB p hp) (by positivity)
  · simp

/-- A sub-band's normalized energy lies in `[0,1]` whatever the gate and
range select, as long as magnitudes are bytes. -/
lemma normalized_band_bounds (bw lo hi : ℚ) (l : List (ℕ × ℕ))
    (hv : ∀ p ∈ l, p.2 ≤ 255) :
    0 ≤ (if 0 < bandCount bw lo hi l then
          bandTotal bw lo hi l / (bandCount bw lo hi l : ℚ) / 255 else 0) ∧
    (if 0 < bandCount bw lo hi l then
      bandTotal bw lo hi l / (bandCount bw lo hi l : ℚ) / 255 else 0) ≤ 1 := by
  split_ifs with h
  · have hc : (0 : ℚ) < (bandCount bw lo hi l : ℚ) := by exact_mod_cast h
    constructor
    · exact div_nonneg (div_nonneg (bandTotal_nonneg _ _ _ _) hc.le) (by norm_num)
    · rw [div_div, div_le_one (by positivity)]
      exact (bandTotal_le bw lo hi l hv).trans_eq (by ring)
  · norm_num

/-! ### Claim C1: band energies are bounded -/

/-- C1: for every nonempty magnitude array of bytes in `[0,255]` and any
sample rate, all five fields produced by `AudioAnalyzer.update` lie in
`[0,1]` (the exact-rational model makes them finite by construction; the
nonemptiness hypothesis reflects the analyzer's fixed positive
`frequencyBinCount`). -/
theorem C1_bounds (sampleRate : ℚ) (data : List ℕ)
    (hv : ∀ v ∈ data, v ≤ 255) (hlen : 0 < data.length) :
    (0 ≤ (computeBands sampleRate data).bass ∧ (computeBands sampleRate data).bass ≤ 1) ∧
    (0 ≤ (computeBands sampleRate data).mid ∧ (computeBands sampleRate data).mid ≤ 1) ∧
    (0 ≤ (computeBands sampleRate data).treble ∧ (computeBands sampleRate data).treble ≤ 1) ∧
    (0 ≤ (computeBands sampleRate data).average ∧ (computeBands sampleRate data).average ≤ 1) ∧
    (0 ≤ (computeBands sampleRate data).brightness ∧
      (computeBands sampleRate data).brightness ≤ 1) := by
  have hv' : ∀ p ∈ data.enum, p.2 ≤ 255 := fun p hp => hv p.2 (List.snd_mem_of_mem_enum hp)
  have hn0 : (0 : ℚ) < (data.length : ℚ) := by exact_mod_cast hlen
  rw [computeBands_spec]
  dsimp only
  refine ⟨?_, ?_, ?_, ?_, ?_⟩
  · exact normalized_band_bounds _ 80 300 data.enum hv'
  · exact normalized_band_bounds _ 300 3000 data.enum hv'
  · exact normalized_band_bounds _ 3000 8000 data.enum hv'
  · constructor
    · exact div_nonneg (div_nonneg (gatedTotal_nonneg _) hn0.le) (by norm_num)
    · rw [div_div, div_le_one (by positivity)]
      have hg := gatedTotal_le data.enum hv'
      rw [List.enum_length] at hg
      linarith
  · constructor
    · split_ifs with h
      · exact div_nonneg (div_nonneg (weightedTotal_nonneg _) h.le) hn0.le
      · norm_num
    · split_ifs with h
      · rw [div_div, div_le_one (by positivity)]
        have hB : ∀ p ∈ data.enum, (p.1 : ℚ) ≤ (data.length : ℚ) := fun p hp => by
          exact_mod_cast (List.fst_lt_of_mem_enum hp).le
        have hwt := weightedTotal_le data.enum (data.length : ℚ) hB
        nlinarith
      · norm_num

/-- C1 witness: the bounds at a concrete byte array. -/
theorem C1_witness :
    (0 ≤ (computeBands 400 [0, 200]).bass ∧ (computeBands 400 [0, 200]).bass ≤ 1) ∧
    (0 ≤ (computeBands 400 [0, 200]).mid ∧ (computeBands 400 [0, 200]).mid ≤ 1) ∧
    (0 ≤ (computeBands 400 [0, 200]).treble ∧ (computeBands 400 [0, 200]).treble ≤ 1) ∧
    (0 ≤ (computeBands 400 [0, 200]).average ∧ (computeBands 400 [0, 200]).average ≤ 1) ∧
    (0 ≤ (computeBands 400 [0, 200]).brightness ∧ (computeBands 400 [0, 200]).brightness ≤ 1) :=
  C1_bounds 400 [0, 200] (by decide) (by decide)

/-! ### Claim C2: fully gated input yields all-zero bands -/

/-- C2: if every bin is at or below the noise-gate threshold `10`, every
field of the produced band record is exactly `0` (in particular no
indeterminate value arises: every guarded denominator's guard fails). -/
theorem C2_gatedSilence (sampleRate : ℚ) (data : List ℕ)
    (hq : ∀ v ∈ data, v ≤ 10) (hlen : 0 < data.length) :
    computeBands sampleRate data = ⟨0, 0, 0, 0, 0⟩ := by
  have hfold := foldl_stepBin_ungated (sampleRate / 2 / (data.length : ℚ)) data.enum initSums
    (fun p hp => hq p.2 (List.snd_mem_of_mem_enum hp))
  simp only [computeBands]
  rw [hfold]
  simp [initSums, Bands.mk.injEq]

/-- C2 witness: an array entirely at or below the gate. -/
theorem C2_witness : computeBands 44100 [5, 10, 0] = ⟨0, 0, 0, 0, 0⟩ :=
  C2_gatedSilence 44100 [5, 10, 0] (by decide) (by decide)

/-! ### Claim C4: normalization policy -/

/-- C4, counterexample: `average` is normalized by the FULL bin count,
not by the count of contributing (gated) bins.  For `[200, 0]` only one
bin contributes, yet `average = 200/255/2`, not `200/255/1`. -/
theorem C4_counterexample :
    (computeBands 400 [200, 0]).average = (200 : ℚ) / 255 / 2 ∧
    gatedCount [200, 0] = 1 ∧
    (200 : ℚ) / 255 / 2 ≠ (200 : ℚ) / 255 / (gatedCount [200, 0] : ℚ) := by
  refine ⟨?_, by decide, ?_⟩
  · simp only [computeBands, List.enum, List.enumFrom, List.foldl]
    norm_num [stepBin, initSums]
  · norm_num [gatedCount]

/-- C4, amended: the three sub-band energies are normalized by `255` and
by the count of bins contributing to that sub-band (yielding `0` when
that count is zero, never an indeterminate value), while `average` is
normalized by `255` and the FULL bin count. -/
theorem C4_amended (sampleRate : ℚ) (data : List ℕ) :
    (computeBands sampleRate data).average = gatedTotal data.enum / (data.length : ℚ) / 255 ∧
    (computeBands sampleRate data).bass =
      (if 0 < bandCount (sampleRate / 2 / (data.length : ℚ)) 80 300 data.enum then
        bandTotal (sampleRate / 2 / (data.length : ℚ)) 80 300 data.enum /
          (bandCount (sampleRate / 2 / (data.length : ℚ)) 80 300 data.enum : ℚ) / 255
      else 0) ∧
    (computeBands sampleRate data).mid =
      (if 0 < bandCount (sampleRate / 2 / (data.length : ℚ)) 300 3000 data.enum then
        bandTotal (sampleRate / 2 / (data.length : ℚ)) 300 3000 data.enum /
          (bandCount (sampleRate / 2 / (data.length : ℚ)) 300 3000 data.enum : ℚ) / 255
      else 0) ∧
    (computeBands sampleRate data).treble =
      (if 0 < bandCount (sampleRate / 2 / (data.length : ℚ)) 3000 8000 data.enum then
        bandTotal (sampleRate / 2 / (data.length : ℚ)) 3000 8000 data.enum /
          (bandCount (sampleRate / 2 / (data.length : ℚ)) 3000 8000 data.enum : ℚ) / 255
      else 0) := by
  refine ⟨?_, ?_, ?_, ?_⟩ <;> rw [computeBands_spec]

/-! ### Claim C5: single-bin spectral centroid -/

/-- C5: when exactly one bin passes the noise gate — the array is
`pre ++ v :: post` with everything in `pre` and `post` gated out and
`v > 10` at index `i = pre.length` — the brightness is exactly
`i / binCount`. -/
theorem C5_centroidSingle (sampleRate : ℚ) (pre post : List ℕ) (v : ℕ)
    (hpre : ∀ w ∈ pre, w ≤ 10) (hpost : ∀ w ∈ post, w ≤ 10) (hv : 10 < v) :
    (computeBands sampleRate (pre ++ v :: post)).brightness =
      (pre.length : ℚ) / (((pre ++ v :: post).length : ℕ) : ℚ) := by
  have hfold := foldl_stepBin_single (sampleRate / 2 / (((pre ++ v :: post).length : ℕ) : ℚ))
    pre post v hpre hpost
  have hv0 : (0 : ℚ) < (v : ℚ) := by exact_mod_cast Nat.lt_of_lt_of_le (by norm_num) hv.le
  simp only [computeBands, hfold]
  rw [stepBin_weightedSum, stepBin_totalSum]
  simp only [initSums, hv, if_pos, zero_add]
  rw [if_pos hv0, mul_div_assoc, div_self (ne_of_gt hv0), mul_one]

/-- C5 witness: array `[0, 200, 0]`, single gated bin at index 1 of 3. -/
theorem C5_witness :
    (computeBands 400 ([0] ++ 200 :: [0])).brightness =
      (([0] : List ℕ).length : ℚ) / (((([0] ++ 200 :: [0]) : List ℕ).length : ℕ) : ℚ) :=
  C5_centroidSingle 400 [0] [0] 200 (by decide) (by decide) (by decide)

/-! ### Claim C9: the 10%-mark scenario -/

/-- The scenario array: 2048 bins, all zero except bin 204 (the 10% mark)
holding 200. -/
def dataC9 : List ℕ := List.replicate 204 0 ++ 200 :: List.replicate 1843 0

/-- At the standard 44100 Hz sample rate, bin 204 of 2048 sits at
`204 · 44100/2/2048 ≈ 2196 Hz`, inside the mid band `[300, 3000)`. -/
lemma computeBands_dataC9 :
    computeBands 44100 dataC9 = ⟨0, 200/255, 0, 200/2048/255, 204/2048⟩ := by
  have hpre : ∀ w ∈ List.replicate 204 (0 : ℕ), w ≤ 10 := fun w hw => by
    simp [List.eq_of_mem_replicate hw]
  have hpost : ∀ w ∈ List.replicate 1843 (0 : ℕ), w ≤ 10 := fun w hw => by
    simp [List.eq_of_mem_replicate hw]
  simp only [dataC9, computeBands]
  rw [foldl_stepBin_single _ _ _ _ hpre hpost]
  norm_num [stepBin, initSums, List.length_append, List.length_replicate, Bands.mk.injEq]

/-- C9, counterexample: for the claimed scenario the code yields bass
energy `0` and mid energy `200/255 ≠ 0` — the opposite of the claim's
`bass > 0, mid = 0` (the 10% bin lies at about 2196 Hz, which the
frequency-threshold analyzer files under mid, not bass). -/
theorem C9_counterexample :
    (computeBands 44100 dataC9).bass = 0 ∧ (computeBands 44100 dataC9).mid ≠ 0 := by
  rw [computeBands_dataC9]
  norm_num

/-- C9, amended: at the standard 44100 Hz sample rate the scenario yields
MID energy `> 0`, bass `= 0`, treble `= 0`, and
`average = 200/255/2048` as claimed. -/
theorem C9_amended :
    (computeBands 44100 dataC9).bass = 0 ∧
    0 < (computeBands 44100 dataC9).mid ∧
    (computeBands 44100 dataC9).treble = 0 ∧
    (computeBands 44100 dataC9).average = (200 : ℚ) / 255 / 2048 := by
  rw [computeBands_dataC9]
  norm_num

/-! ### Claim C3: particle hue dominance and tie-breaking -/

/-- C3, counterexample: the hue branch compares with strict `>`, so a tie
involving bass does NOT select the bass family.  With `bass = mid = 1/2,
treble = 1/10` (bass ties mid at the maximum) the mid family is selected,
and with `mid = treble = 1/2, bass = 1/10` (mid ties treble, bass not
maximal) the treble family is selected — contradicting both tie-break
sentences of the claim. -/
theorem C3_counterexample :
    selectHueFamily ⟨1/2, 1/2, 1/10, 0, 0⟩ = HueFamily.midCyanGreen ∧
    selectHueFamily ⟨1/10, 1/2, 1/2, 0, 0⟩ = HueFamily.treblePinkMagenta := by
  refine ⟨?_, ?_⟩ <;> norm_num [selectHueFamily]

/-- C3, amended: the bass family is selected iff bass is STRICTLY greater
than both mid and treble (ties against bass fall through), and the mid
family iff bass is not the strict maximum and mid is STRICTLY greater
than treble (a mid/treble tie selects the treble family).  The claim's
concrete non-tied examples hold: `bass=0.9, mid=0.1, treble=0.1` selects
the bass family and `mid=0.8, treble=0.2, bass=0.1` selects the mid
family. -/
theorem C3_amended :
    (∀ b : Bands,
      (selectHueFamily b = HueFamily.bassBluePurple ↔ b.mid < b.bass ∧ b.treble < b.bass) ∧
      (selectHueFamily b = HueFamily.midCyanGreen ↔
        ¬(b.mid < b.bass ∧ b.treble < b.bass) ∧ b.treble < b.mid)) ∧
    selectHueFamily ⟨9/10, 1/10, 1/10, 0, 0⟩ = HueFamily.bassBluePurple ∧
    selectHueFamily ⟨1/10, 4/5, 1/5, 0, 0⟩ = HueFamily.midCyanGreen := by
  refine ⟨fun b => ?_, by norm_num [selectHueFamily], by norm_num [selectHueFamily]⟩
  unfold selectHueFamily
  split_ifs with h1 h2 <;> simp_all [gt_iff_lt]

/-! ### Claim C6: particle toroidal wrap -/

/-- C6, counterexample: a particle at `x = 5` moving left by `10` on a
width-100 surface is wrapped to `x = 100`, which is NOT in `[0, 100)`:
the post-frame range is the closed interval, not the half-open one
claimed. -/
theorem C6_counterexample :
    (moveParticle 100 100 0 ⟨5, 5, 1, -10, 0, 1⟩).x = 100 ∧
    ¬(moveParticle 100 100 0 ⟨5, 5, 1, -10, 0, 1⟩).x < 100 := by
  refine ⟨?_, ?_⟩ <;> norm_num [moveParticle]

/-- C6, amended: after one render step every particle coordinate lies in
the CLOSED box `[0, width] × [0, height]` (a coordinate leaving on the
low side is placed exactly at `width` resp. `height`), for every starting
position, velocity and audio intensity. -/
theorem C6_amended (width height intensity : ℚ) (p : Particle)
    (hw : 0 ≤ width) (hh : 0 ≤ height) :
    0 ≤ (moveParticle width height intensity p).x ∧
    (moveParticle width height intensity p).x ≤ width ∧
    0 ≤ (moveParticle width height intensity p).y ∧
    (moveParticle width height intensity p).y ≤ height := by
  dsimp only [moveParticle]
  refine ⟨?_, ?_, ?_, ?_⟩ <;> split_ifs <;> linarith

/-- C6 witness: the amended bounds at a concrete particle and frame. -/
theorem C6_witness :
    0 ≤ (moveParticle 100 50 2 ⟨1, 2, 1, 3, -4, 1⟩).x ∧
    (moveParticle 100 50 2 ⟨1, 2, 1, 3, -4, 1⟩).x ≤ 100 ∧
    0 ≤ (moveParticle 100 50 2 ⟨1, 2, 1, 3, -4, 1⟩).y ∧
    (moveParticle 100 50 2 ⟨1, 2, 1, 3, -4, 1⟩).y ≤ 50 :=
  C6_amended 100 50 2 ⟨1, 2, 1, 3, -4, 1⟩ (by norm_num) (by norm_num)

/-! ### Claim C7: oscillator phase accumulation -/

/-- The per-frame advance never changes a layer's `speed`. -/
lemma iterate_drawWaveOffset_speed (n : ℕ) (cfg : WaveCfg) :
    ((fun c => drawWaveOffset c (1/2))^[n] cfg).speed = cfg.speed := by
  induction n generalizing cfg with
  | zero => rfl
  | succ n ih => rw [Function.iterate_succ_apply]; exact (ih _).trans rfl

/-- Closed form of the running phase under constant `bandValue = 1/2`. -/
lemma iterate_drawWaveOffset_offset (n : ℕ) (cfg : WaveCfg) :
    ((fun c => drawWaveOffset c (1/2))^[n] cfg).offset =
      cfg.offset + (n : ℚ) * cfg.speed * (3/2) := by
  induction n generalizing cfg with
  | zero => simp
  | succ n ih =>
    rw [Function.iterate_succ_apply, ih]
    dsimp [drawWaveOffset]
    push_cast
    ring

/-- C7: each frame adds exactly `speed * (1 + bandValue)` to the layer's
phase `offset`; with nonnegative speed and band value the phase never
decreases; and under constant `bandValue = 1/2` the phase after `N`
frames is exactly `offset₀ + N * speed * 3/2` (the rational model is
exact, so the floating-point tolerance is not needed). -/
theorem C7_offsetAdvance (cfg : WaveCfg) (bandValue : ℚ)
    (hs : 0 ≤ cfg.speed) (hb : 0 ≤ bandValue) :
    (drawWaveOffset cfg bandValue).offset = cfg.offset + cfg.speed * (1 + bandValue) ∧
    cfg.offset ≤ (drawWaveOffset cfg bandValue).offset ∧
    ∀ n : ℕ, ((fun c => drawWaveOffset c (1/2))^[n] cfg).offset =
      cfg.offset + (n : ℚ) * cfg.speed * (3/2) := by
  refine ⟨rfl, ?_, fun n => iterate_drawWaveOffset_offset n cfg⟩
  have h : 0 ≤ cfg.speed * (1 + bandValue) := mul_nonneg hs (by linarith)
  dsimp [drawWaveOffset]
  linarith

/-- C7 witness: applied to the first wave layer at `bandValue = 1/2`. -/
theorem C7_witness :
    (drawWaveOffset ⟨50, 1/100, 1/50, "#00f2ff", 0⟩ (1/2)).offset =
      (0 : ℚ) + (1/50) * (1 + 1/2) :=
  (C7_offsetAdvance ⟨50, 1/100, 1/50, "#00f2ff", 0⟩ (1/2) (by norm_num) (by norm_num)).1

/-! ### Claim C8: particle reinitialization invariants -/

/-- One call to `initParticles` with random draws in `[0,1)` and positive
dimensions produces 200 particles, all inside the surface with positive
size. -/
lemma initParticles_valid (rand : ℕ → ℚ) (width height : ℚ)
    (hr : ∀ n, 0 ≤ rand n ∧ rand n < 1) (hw : 0 < width) (hh : 0 < height) :
    (initParticles rand width height).length = 200 ∧
      ∀ p ∈ initParticles rand width height,
        0 ≤ p.x ∧ p.x < width ∧ 0 ≤ p.y ∧ p.y < height ∧ 0 < p.size := by
  constructor
  · simp [initParticles]
  · intro p hp
    simp only [initParticles, List.mem_map] at hp
    obtain ⟨i, _, rfl⟩ := hp
    exact ⟨mul_nonneg (hr _).1 hw.le, mul_lt_of_lt_one_left hw (hr _).2,
      mul_nonneg (hr _).1 hh.le, mul_lt_of_lt_one_left hh (hr _).2,
      by linarith [(hr (6 * i + 2)).1]⟩

/-- C8: two consecutive calls to `initParticles` (with independent random
streams drawing from `[0,1)`) on the same positive dimensions each
produce exactly 200 particles satisfying `0 ≤ x < width`, `0 ≤ y <
height` and `size > 0`. -/
theorem C8_initInvariants (rand₁ rand₂ : ℕ → ℚ) (width height : ℚ)
    (h₁ : ∀ n, 0 ≤ rand₁ n ∧ rand₁ n < 1) (h₂ : ∀ n, 0 ≤ rand₂ n ∧ rand₂ n < 1)
    (hw : 0 < width) (hh : 0 < height) :
    ((initParticles rand₁ width height).length = 200 ∧
      ∀ p ∈ initParticles rand₁ width height,
        0 ≤ p.x ∧ p.x < width ∧ 0 ≤ p.y ∧ p.y < height ∧ 0 < p.size) ∧
    ((initParticles rand₂ width height).length = 200 ∧
      ∀ p ∈ initParticles rand₂ width height,
        0 ≤ p.x ∧ p.x < width ∧ 0 ≤ p.y ∧ p.y < height ∧ 0 < p.size) :=
  ⟨initParticles_valid rand₁ width height h₁ hw hh,
   initParticles_valid rand₂ width height h₂ hw hh⟩

/-- C8 witness: both calls at concrete streams and dimensions. -/
theorem C8_witness :
    (initParticles (fun _ => 0) 1 1).length = 200 :=
  ((C8_initInvariants (fun _ => 0) (fun _ => 1/2) 1 1
      (fun _ => by norm_num) (fun _ => by norm_num) (by norm_num) (by norm_num)).1).1

/-! ### Claim C10: sampling outside an open session -/

/-- The band record computed by a 2-bin session at sample rate 400 with
snapshot `[0, 200]`: bin 1 sits at 100 Hz (bass) and passes the gate. -/
lemma computeBands_session400 : computeBands 400 [0, 200] = ⟨40/51, 0, 0, 20/51, 1/2⟩ := by
  simp only [computeBands, List.enum, List.enumFrom, List.foldl]
  norm_num [stepBin, initSums, Bands.mk.injEq]

/-- C10, counterexample: calling `update` after `stop` IS a no-op, but the
exposed bands are NOT zeroed — `stop` never resets `this.bands`, so a
band computed during the session (here `bass = 40/51` from a 2-bin
session at sample rate 400) is still exposed after close. -/
theorem C10_counterexample :
    update (stop (update (initAnalyzer mkAnalyzer 400) [0, 200])) [0, 0] =
      stop (update (initAnalyzer mkAnalyzer 400) [0, 200]) ∧
    (update (stop (update (initAnalyzer mkAnalyzer 400) [0, 200])) [0, 0]).bands.bass ≠ 0 := by
  refine ⟨?_, ?_⟩ <;>
    norm_num [update, stop, initAnalyzer, mkAnalyzer, computeBands_session400]

/-- C10, amended: `update` on a non-initialized analyzer is a strict
no-op (no state modified); the constructor exposes all-zero bands, so the
fields read 0 before the first successful `init`; but after `stop` the
bands merely RETAIN their last computed values — they are not reset to
zero. -/
theorem C10_amended :
    (∀ (s : AnalyzerState) (d : List ℕ), s.isInitialized = false → update s d = s) ∧
    mkAnalyzer.bands = initBands ∧
    (∀ s : AnalyzerState, (stop s).bands = s.bands) := by
  refine ⟨fun s d h => ?_, rfl, fun s => rfl⟩
  simp [update, h]

/-- C10 witness: `update` before any `init` leaves the fresh analyzer
(with its all-zero bands) unchanged. -/
theorem C10_witness :
    update mkAnalyzer [200, 200] = mkAnalyzer :=
  C10_amended.1 mkAnalyzer [200, 200] rfl

end PodcastViz
